import Mathlib

/-!
Verification of the NyayaSahayak legal-reasoning backend core:
the text chunker (`app/modules/utils.py`), the retrieval dedup and
reasoning-workflow stages (`app/modules/langgraph_workflow.py`,
`app/modules/rag_agent.py`), and the corpus indexer
(`app/modules/retriever.py`, `app/modules/data_loader.py`).

Python code is shallowly embedded: strings are Lean `String`s, Python
ints are `Nat` where the source only ever sees non-negative values,
dynamically typed metadata values are the `PyVal` sum, exceptions are
`Except String`, and the external LLM / retriever collaborators are
oracle function parameters.
-/

set_option autoImplicit false

namespace NyayaSahayak

/-- Whitespace as Python's `str.split()` / `\s` see it (ASCII part):
space, tab, newline, carriage return, vertical tab, form feed. -/
def isPySpace (c : Char) : Bool :=
  c = ' ' || c = '\t' || c = '\n' || c = '\r' || c = '\x0b' || c = '\x0c'

/-- Counter for Python `len(s.split())`: number of maximal runs of
non-whitespace characters.  The `inWord` flag records whether the
previous character was part of a word. -/
def wordCountAux : List Char → Bool → Nat
  | [], _ => 0
  | c :: rest, inWord =>
    if isPySpace c then wordCountAux rest false
    else (if inWord then 0 else 1) + wordCountAux rest true

/-- `len(sentence.split())` from `chunk_text`. -/
def wordCount (s : String) : Nat := wordCountAux s.toList false

/-- Total word count of a list of sentences. -/
def wordSum (l : List String) : Nat := (l.map wordCount).sum

/-- `' '.join(current_chunk)` from `chunk_text`. -/
def joinSpace (l : List String) : String := String.intercalate " " l

/-- Is the character one of the sentence-final punctuation marks of the
splitting regex `(?<=[.!?])\s+`? -/
def isSentEnd (c : Char) : Bool := c = '.' || c = '!' || c = '?'

/-- Embedding of `re.split(r'(?<=[.!?])\s+', text)`.
State: `skip = true` while consuming the (greedy) whitespace run of a
separator match; `cur` is the current segment, reversed.  A whitespace
character ends the current segment exactly when the segment's last
character is `.`, `!` or `?` (the lookbehind). -/
def splitSentencesAux : List Char → Bool → List Char → List String
  | [], skip, cur => if skip then [""] else [String.mk cur.reverse]
  | c :: rest, true, cur =>
    if isPySpace c then splitSentencesAux rest true cur
    else splitSentencesAux rest false [c]
  | c :: rest, false, cur =>
    if isPySpace c && (match cur with | p :: _ => isSentEnd p | [] => false) then
      String.mk cur.reverse :: splitSentencesAux rest true []
    else splitSentencesAux rest false (c :: cur)

/-- `sentences = re.split(r'(?<=[.!?])\s+', text)` from `chunk_text`. -/
def splitSentences (text : String) : List String :=
  splitSentencesAux text.toList false []

/-- The backward overlap walk of `chunk_text`, lines 21-29: walking the
reversed closed chunk, a sentence is taken while the accumulated word
count stays within `ov`; the first failure stops the walk (`break`). -/
def overlapTake (ov : Nat) : Nat → List String → List String
  | _, [] => []
  | acc, s :: rest =>
    if acc + wordCount s ≤ ov then s :: overlapTake ov (acc + wordCount s) rest
    else []

/-- `overlap_words` computed from a closed chunk: walk `reversed(current_chunk)`
inserting each kept sentence at the front, i.e. take from the reversed list
and reverse back to original order. -/
def overlapSeed (ov : Nat) (chunk : List String) : List String :=
  (overlapTake ov 0 chunk.reverse).reverse

/-- The main loop of `chunk_text` (utils.py lines 15-38), at the level of
sentence lists.  `cur` is `current_chunk`, `curLen` is `current_length`,
`chunks` the accumulator; a chunk is closed when adding the next sentence
would exceed `cs` and the current chunk is non-empty, and the new chunk is
seeded with the trailing overlap of the closed one.  `wordSum seed` is the
`overlap_length` accumulated during the backward walk. -/
def chunkAux (cs ov : Nat) : List String → List String → Nat → List (List String) → List (List String)
  | [], cur, _, chunks => if cur = [] then chunks else chunks ++ [cur]
  | sentence :: rest, cur, curLen, chunks =>
    if curLen + wordCount sentence > cs ∧ ¬ cur = [] then
      chunkAux cs ov rest (overlapSeed ov cur ++ [sentence])
        (wordSum (overlapSeed ov cur) + wordCount sentence) (chunks ++ [cur])
    else
      chunkAux cs ov rest (cur ++ [sentence]) (curLen + wordCount sentence) chunks

/-- `chunk_text` at the sentence-list level: chunks as lists of sentences. -/
def chunkSentences (sents : List String) (cs ov : Nat) : List (List String) :=
  chunkAux cs ov sents [] 0 []

/-- `chunk_text(text, chunk_size, overlap)` from utils.py (defaults in the
source: `chunk_size=1024`, `overlap=128`): split into sentences, run the
accumulation loop, join each chunk with single spaces. -/
def chunk_text (text : String) (cs ov : Nat) : List String :=
  (chunkSentences (splitSentences text) cs ov).map joinSpace

/-- A dynamically typed Python value, as far as the metadata paths of this
code distinguish them: a string or an integer (the only shapes exercised by
the indexing metadata). -/
inductive PyVal where
  | str (s : String)
  | int (n : Int)
  deriving DecidableEq

/-- Is the value a Python `str`? -/
def PyVal.isStr : PyVal → Bool
  | .str _ => true
  | .int _ => false

/-- A case record as produced by `DataLoader.get_all_cases` after
`preprocess_data`: `id` is the dense dataframe index, `text` is required,
and the remaining fields are whatever the dataframe holds (`fillna` inserts
string defaults for missing values but does not convert present ones). -/
structure CaseRecord where
  id : Nat
  title : PyVal
  citation : PyVal
  court : PyVal
  judge : PyVal
  decision_date : PyVal
  year : PyVal
  text : String
  deriving DecidableEq

/-- The per-chunk metadata dict built in `VectorRetriever.index_cases`
(retriever.py lines 63-72). -/
structure ChunkMeta where
  case_id : PyVal
  title : PyVal
  citation : PyVal
  court : PyVal
  judge : PyVal
  decision_date : PyVal
  year : PyVal
  chunk_index : PyVal
  deriving DecidableEq

/-- `doc_id = f"case_{case_id}_chunk_{chunk_idx}"` (retriever.py line 60). -/
def compositeId (caseId chunkIdx : Nat) : String :=
  "case_" ++ toString caseId ++ "_chunk_" ++ toString chunkIdx

/-- The metadata dict for one chunk: `case_id` and `chunk_index` pass through
`str(...)`, every other field is copied from the case record unchanged. -/
def mkChunkMeta (c : CaseRecord) (chunkIdx : Nat) : ChunkMeta :=
  { case_id := .str (toString c.id)
    title := c.title
    citation := c.citation
    court := c.court
    judge := c.judge
    decision_date := c.decision_date
    year := c.year
    chunk_index := .str (toString chunkIdx) }

/-- The parallel `ids` / `metadatas` / `documents` lists built by
`index_cases` (retriever.py lines 49-73), as a list of triples
`(id, metadata, document)`; `chunk_text` is called with the given
chunk size and the source's default overlap of 128. -/
def indexTriples (cases : List CaseRecord) (csz : Nat) : List (String × ChunkMeta × String) :=
  cases.flatMap fun c =>
    (chunk_text c.text csz 128).enum.map fun p =>
      (compositeId c.id p.1, mkChunkMeta c p.1, p.2)

/-- The `metadatas` list written by `index_cases`. -/
def indexMetadatas (cases : List CaseRecord) (csz : Nat) : List ChunkMeta :=
  (indexTriples cases csz).map fun t => t.2.1

/-- Modelled from the spec: the Vector Index collaborator (chromadb) is
external to this repository; spec section 4.3 specifies a persistent
collection keyed by document id whose `upsert` is bulk add/replace under
caller-supplied ids.  Modelled as a partial map from id to (metadata,
document). -/
def VectorStore : Type := String → Option (ChunkMeta × String)

/-- Modelled from the spec: a single upsert-by-id overwrites the entry
stored under `id` and leaves every other id unchanged. -/
def upsertOne (store : VectorStore) (id : String) (e : ChunkMeta × String) : VectorStore :=
  fun k => if k = id then some e else store k

/-- Bulk upsert of a list of `(id, metadata, document)` triples, in order. -/
def upsertList (store : VectorStore) (l : List (String × ChunkMeta × String)) : VectorStore :=
  l.foldl (fun acc t => upsertOne acc t.1 t.2) store

/-- The last value written for a key by a triple list (later entries win). -/
def lastWrite : List (String × ChunkMeta × String) → String → Option (ChunkMeta × String)
  | [], _ => none
  | t :: rest, k =>
    match lastWrite rest k with
    | some e => some e
    | none => if k = t.1 then some t.2 else none

/-- The fixed-size batch slicing of `index_cases` (retriever.py lines 77-81):
`for i in range(0, len(documents), batch_size)` with slices `[i:i+batch_size]`.
Fuel-driven so that it is structurally recursive. -/
def batchListAux {α : Type} (bs : Nat) : Nat → List α → List (List α)
  | 0, _ => []
  | fuel + 1, l =>
    match l with
    | [] => []
    | a :: rest => (a :: rest).take bs :: batchListAux bs fuel ((a :: rest).drop bs)

/-- Slice a list into consecutive batches of size `bs`. -/
def batchList {α : Type} (bs : Nat) (l : List α) : List (List α) :=
  batchListAux bs l.length l

/-- `index_cases` over the modelled store: build the triples, then write
them batch by batch (batch size 100) in order. -/
def indexCorpus (store : VectorStore) (cases : List CaseRecord) (csz : Nat) : VectorStore :=
  (batchList 100 (indexTriples cases csz)).foldl (fun acc b => upsertList acc b) store

/-- The metadata dict of a retrieved chunk as the workflow reads it via
`metadata.get(...)`: each lookup yields an optional string (the values were
stringified at indexing for the fields the workflow touches).  The float
`distance` entry of a retrieved doc is unused by the modelled logic and
omitted. -/
structure DocMetadata where
  case_id : Option String
  title : Option String
  citation : Option String
  court : Option String
  judge : Option String
  decision_date : Option String
  deriving DecidableEq

/-- A retrieved chunk: `{'text': ..., 'metadata': ...}`. -/
structure RetrievedDoc where
  text : String
  metadata : DocMetadata
  deriving DecidableEq

/-- A related-case entry as built by both dedup sites. -/
structure RelatedCase where
  title : Option String
  citation : Option String
  court : Option String
  decision_date : Option String
  deriving DecidableEq

/-- The dict appended for a newly seen case id. -/
def mkRelatedCase (d : RetrievedDoc) : RelatedCase :=
  { title := d.metadata.title
    citation := d.metadata.citation
    court := d.metadata.court
    decision_date := d.metadata.decision_date }

/-- The dedup loop of `LegalAgentWorkflow.retrieval_node`
(langgraph_workflow.py lines 123-137): `seen_cases` is the set of case ids
already appended, modelled as a list with membership test. -/
def lgRelatedAux : List RetrievedDoc → List (Option String) → List RelatedCase
  | [], _ => []
  | d :: rest, seen =>
    if d.metadata.case_id ∈ seen then lgRelatedAux rest seen
    else mkRelatedCase d :: lgRelatedAux rest (d.metadata.case_id :: seen)

/-- Related cases derived from ranked retrieved docs in the agentic path. -/
def lgRelatedCases (docs : List RetrievedDoc) : List RelatedCase :=
  lgRelatedAux docs []

/-- The dedup loop of `RAGAgent.process_query` (rag_agent.py lines 121-133);
textually the same algorithm as the workflow's retrieval stage. -/
def ragRelatedAux : List RetrievedDoc → List (Option String) → List RelatedCase
  | [], _ => []
  | d :: rest, seen =>
    if d.metadata.case_id ∈ seen then ragRelatedAux rest seen
    else mkRelatedCase d :: ragRelatedAux rest (d.metadata.case_id :: seen)

/-- Related cases derived from ranked retrieved docs in the direct RAG path. -/
def ragRelatedCases (docs : List RetrievedDoc) : List RelatedCase :=
  ragRelatedAux docs []

/-- The subsequence of docs that are the first occurrence of their case id;
the dedup output is exactly these docs mapped through `mkRelatedCase`. -/
def firstOccAux : List RetrievedDoc → List (Option String) → List RetrievedDoc
  | [], _ => []
  | d :: rest, seen =>
    if d.metadata.case_id ∈ seen then firstOccAux rest seen
    else d :: firstOccAux rest (d.metadata.case_id :: seen)

/-- First-occurrence-per-case-id subsequence of a ranked doc list. -/
def firstOcc (docs : List RetrievedDoc) : List RetrievedDoc :=
  firstOccAux docs []

/-- The accumulating workflow state (`AgentState` TypedDict). -/
structure AgentState where
  query : String
  legal_issues : List String
  keywords : List String
  retrieved_cases : List RetrievedDoc
  case_summaries : List String
  legal_analysis : String
  final_answer : String
  related_cases : List RelatedCase
  reasoning_steps : List String

/-- The `initial_state` dict of `process_query` (langgraph_workflow.py
lines 243-253). -/
def initialState (q : String) : AgentState :=
  { query := q
    legal_issues := []
    keywords := []
    retrieved_cases := []
    case_summaries := []
    legal_analysis := ""
    final_answer := ""
    related_cases := []
    reasoning_steps := [] }

/-- Python `line.strip()`: drop leading and trailing whitespace. -/
def pyStrip (s : String) : String :=
  String.mk (((s.toList.dropWhile isPySpace).reverse.dropWhile isPySpace).reverse)

/-- Python `response.split('\n')`: split at every newline, keeping empty
segments. -/
def splitOnNlAux : List Char → List Char → List String
  | [], cur => [String.mk cur.reverse]
  | c :: rest, cur =>
    if c = '\n' then String.mk cur.reverse :: splitOnNlAux rest []
    else splitOnNlAux rest (c :: cur)

/-- `response.split('\n')`. -/
def splitOnNl (s : String) : List String := splitOnNlAux s.toList []

/-- Does the second list start with the first one? -/
def startsWithList : List Char → List Char → Bool
  | [], _ => true
  | _ :: _, [] => false
  | p :: ps, c :: rest => p = c && startsWithList ps rest

/-- Python `pat in s` substring containment, on character lists. -/
def containsSub (pat : List Char) : List Char → Bool
  | [] => startsWithList pat []
  | c :: rest => startsWithList pat (c :: rest) || containsSub pat rest

/-- The `current_section` tracker of the query-analysis parser. -/
inductive ParseSection where
  | noSec
  | issues
  | keywords
  deriving DecidableEq

/-- The line parser of `query_analysis_node` (langgraph_workflow.py lines
89-103): strip each line; a line containing `LEGAL ISSUES:` or `KEYWORDS:`
switches the section; otherwise a line starting with `-` contributes its
stripped remainder to the current section's list (dropped when no section
is active). -/
def parseSectionsAux : List String → ParseSection → List String × List String
  | [], _ => ([], [])
  | l :: rest, sec =>
    let line := pyStrip l
    if containsSub "LEGAL ISSUES:".toList line.toList then
      parseSectionsAux rest ParseSection.issues
    else if containsSub "KEYWORDS:".toList line.toList then
      parseSectionsAux rest ParseSection.keywords
    else if line.toList.head? = some '-' then
      let item := pyStrip (String.mk (line.toList.drop 1))
      let p := parseSectionsAux rest sec
      match sec with
      | ParseSection.issues => (item :: p.1, p.2)
      | ParseSection.keywords => (p.1, item :: p.2)
      | ParseSection.noSec => p
    else parseSectionsAux rest sec

/-- The system prompt of the query-analysis stage. -/
def queryAnalysisSystemPrompt : String :=
  "You are a legal query analyzer. Extract the main legal issues and keywords from the user's query.\nReturn your response in this format:\nLEGAL ISSUES:\n- [issue 1]\n- [issue 2]\n\nKEYWORDS:\n- [keyword 1]\n- [keyword 2]"

/-- `query_analysis_node` (langgraph_workflow.py lines 66-108), with the
language model as an oracle from (system prompt, user prompt) to the
response text (`_call_llm` catches its own exceptions and returns an error
string, so the oracle is total). -/
def queryAnalysisNode (llm : String → String → String) (st : AgentState) : AgentState :=
  let query := st.query
  let response := llm queryAnalysisSystemPrompt ("Analyze this legal query: " ++ query)
  let parsed := parseSectionsAux (splitOnNl response) ParseSection.noSec
  { st with
    reasoning_steps := st.reasoning_steps ++ ["Analyzing query for legal issues and keywords"]
    legal_issues := if parsed.1 = [] then [query] else parsed.1
    keywords := if parsed.2 = [] then [query] else parsed.2 }

/-- `search_query = f"{query} {keywords_str}"` with
`keywords_str = " ".join(keywords)` (retrieval stage). -/
def searchQuery (st : AgentState) : String :=
  st.query ++ " " ++ joinSpace st.keywords

/-- `retrieval_node` (langgraph_workflow.py lines 110-139): the retriever
call may raise (network / store errors), so the oracle is `Except`-valued
and its failure aborts the stage. -/
def retrievalNodeE (retrieve : String → Except String (List RetrievedDoc))
    (st : AgentState) : Except String AgentState :=
  match retrieve (searchQuery st) with
  | .error e => .error e
  | .ok docs =>
    .ok { st with
      reasoning_steps := st.reasoning_steps ++ ["Retrieving relevant legal cases from database"]
      retrieved_cases := docs
      related_cases := lgRelatedCases docs }

/-- Python `f"{x}"` on an optional string: `None` renders as `"None"`. -/
def optToStr : Option String → String
  | some s => s
  | none => "None"

/-- The system prompt of the summarization stage. -/
def summarizerSystemPrompt : String :=
  "You are a legal case summarizer. Extract the key legal arguments, \nholdings, and reasoning from the provided case text. Be concise but comprehensive."

/-- The per-chunk user prompt of the summarization stage: the chunk text is
truncated to its first 2000 characters (`text[:2000]`). -/
def summarizerUserPrompt (d : RetrievedDoc) : String :=
  "Case: " ++ optToStr d.metadata.title ++ "\nCitation: " ++ optToStr d.metadata.citation
    ++ "\n\nText:\n" ++ d.text.take 2000
    ++ "\n\nProvide a brief summary of the key legal points."

/-- `summarizer_node` (langgraph_workflow.py lines 141-171): one summary per
doc among the first five retrieved, prefixed with the source title in
brackets, in rank order. -/
def summarizerNode (llm : String → String → String) (st : AgentState) : AgentState :=
  { st with
    reasoning_steps := st.reasoning_steps ++ ["Summarizing key arguments from retrieved cases"]
    case_summaries := (st.retrieved_cases.take 5).map fun d =>
      "[" ++ optToStr d.metadata.title ++ "]: " ++ llm summarizerSystemPrompt (summarizerUserPrompt d) }

/-- The system prompt of the synthesis stage. -/
def legalAnalystSystemPrompt : String :=
  "You are NyayaSahayak, an expert Indian legal AI assistant. \nProvide comprehensive legal analysis based on the retrieved cases.\n\nYour response should:\n1. Address the legal query directly\n2. Reference specific cases and their holdings\n3. Explain relevant legal principles and doctrines\n4. Provide balanced analysis\n5. Use proper legal terminology\n6. Acknowledge any limitations\n\nFormat your response clearly with proper structure."

/-- One line of the related-cases listing of the synthesis prompt. -/
def relatedCaseLine (c : RelatedCase) : String :=
  "- " ++ optToStr c.title ++ " (" ++ optToStr c.citation ++ ")"

/-- The user prompt of the synthesis stage (langgraph_workflow.py lines
203-214). -/
def legalAnalystUserPrompt (st : AgentState) : String :=
  "Query: " ++ st.query
    ++ "\n\nLegal Issues Identified:\n"
    ++ String.intercalate "\n" (st.legal_issues.map fun issue => "- " ++ issue)
    ++ "\n\nRelated Cases:\n"
    ++ String.intercalate "\n" ((st.related_cases.take 5).map relatedCaseLine)
    ++ "\n\nCase Summaries and Analysis:\n"
    ++ String.intercalate "\n\n" st.case_summaries
    ++ "\n\nProvide a comprehensive legal analysis addressing the query."

/-- `legal_analyst_node` (langgraph_workflow.py lines 173-221): the model's
answer becomes both `legal_analysis` and `final_answer`. -/
def legalAnalystNode (llm : String → String → String) (st : AgentState) : AgentState :=
  let analysis := llm legalAnalystSystemPrompt (legalAnalystUserPrompt st)
  { st with
    reasoning_steps := st.reasoning_steps ++ ["Synthesizing legal analysis and generating final answer"]
    legal_analysis := analysis
    final_answer := analysis }

/-- The response dict of `LegalAgentWorkflow.process_query`;
`processing_info` is the dict of counters (empty on the error path). -/
structure QueryResponse where
  query : String
  answer : String
  related_cases : List RelatedCase
  legal_issues : List String
  reasoning_steps : List String
  processing_info : List (String × Nat)
  deriving DecidableEq

/-- The compiled linear `StateGraph` (query_analysis -> retrieval ->
summarizer -> legal_analyst): sequential composition of the four stage
functions, a stage's exception aborting the run. -/
def runPipeline (n1 n2 n3 n4 : AgentState → Except String AgentState)
    (st : AgentState) : Except String AgentState :=
  (((n1 st).bind n2).bind n3).bind n4

/-- Lift an exception-free stage into the pipeline. -/
def okStage (f : AgentState → AgentState) : AgentState → Except String AgentState :=
  fun st => .ok (f st)

/-- `LegalAgentWorkflow.process_query` (langgraph_workflow.py lines
240-279) over abstract stages: invoke the pipeline on the initial state;
on success project the final state into the response dict, on any exception
return the error response with empty lists and empty processing info. -/
def processQueryAbs (n1 n2 n3 n4 : AgentState → Except String AgentState)
    (q : String) : QueryResponse :=
  match runPipeline n1 n2 n3 n4 (initialState q) with
  | .ok fs =>
    { query := q
      answer := fs.final_answer
      related_cases := fs.related_cases
      legal_issues := fs.legal_issues
      reasoning_steps := fs.reasoning_steps
      processing_info :=
        [("cases_retrieved", fs.retrieved_cases.length),
         ("cases_analyzed", fs.case_summaries.length)] }
  | .error e =>
    { query := q
      answer := "Error processing query: " ++ e
      related_cases := []
      legal_issues := []
      reasoning_steps := []
      processing_info := [] }

/-- The error-path response of `process_query` (lines 272-279). -/
def errorResponse (q e : String) : QueryResponse :=
  { query := q
    answer := "Error processing query: " ++ e
    related_cases := []
    legal_issues := []
    reasoning_steps := []
    processing_info := [] }

/-- The concrete four-stage workflow with its oracles. -/
def workflowInvoke (llm : String → String → String)
    (retrieve : String → Except String (List RetrievedDoc))
    (st : AgentState) : Except String AgentState :=
  runPipeline (okStage (queryAnalysisNode llm)) (retrievalNodeE retrieve)
    (okStage (summarizerNode llm)) (okStage (legalAnalystNode llm)) st

/-- `process_query` of the agentic workflow with its oracles. -/
def lgProcessQuery (llm : String → String → String)
    (retrieve : String → Except String (List RetrievedDoc))
    (q : String) : QueryResponse :=
  processQueryAbs (okStage (queryAnalysisNode llm)) (retrievalNodeE retrieve)
    (okStage (summarizerNode llm)) (okStage (legalAnalystNode llm)) q

/-- The new content of chunk `i` of a chunk sequence: the whole chunk for
the first one, and everything after the overlap seed inherited from the
previous chunk for the others. -/
def newContent (ov : Nat) (chunks : List (List String)) (i : Nat) : List String :=
  if i = 0 then chunks.getD 0 []
  else (chunks.getD i []).drop (overlapSeed ov (chunks.getD (i - 1) [])).length

/-- The chunk-budget property of a chunk's new content: either it fits the
`cs` word budget, or it is a single sentence that alone exceeds it. -/
def budgetOk (cs : Nat) (n : List String) : Prop :=
  wordSum n ≤ cs ∨ ∃ s, n = [s] ∧ cs < wordCount s

/-- The chunk sequence invariant of the main loop: each chunk is its seed
(the previous chunk's trailing overlap, or the given list for the first
chunk) followed by new content satisfying the budget property. -/
def chunkChain (cs ov : Nat) : List String → List (List String) → Prop
  | _, [] => True
  | sp, c :: rest =>
    (∃ n, c = sp ++ n ∧ budgetOk cs n) ∧ chunkChain cs ov (overlapSeed ov c) rest

/-- Placeholder retrieved doc used as the `getD` default in statements. -/
def defaultDoc : RetrievedDoc :=
  { text := ""
    metadata :=
      { case_id := none, title := none, citation := none, court := none
        judge := none, decision_date := none } }

end NyayaSahayak

namespace NyayaSahayak

-- sanity checks on concrete inputs (mirrors Python behaviour)
example : splitSentences "A. B. C." = ["A.", "B.", "C."] := by decide
example : splitSentences "" = [""] := by decide
example : splitSentences "A. " = ["A.", ""] := by decide
example : splitSentences " A" = [" A"] := by decide
example : wordCount "a b  c" = 3 := by decide
example : chunk_text "" 1024 128 = [""] := by decide
example : chunk_text "a b. c d. e f." 3 1 = ["a b.", "c d.", "e f."] := by decide
example : chunk_text "a b. c d. e f." 3 2 = ["a b.", "a b. c d.", "c d. e f."] := by decide

end NyayaSahayak

namespace NyayaSahayak

/-! ### Basic lemmas about the chunker loop -/

theorem wordSum_append (a b : List String) : wordSum (a ++ b) = wordSum a + wordSum b := by
  simp [wordSum]

theorem wordSum_single (s : String) : wordSum [s] = wordCount s := by
  simp [wordSum]

theorem joinSpace_single (s : String) : joinSpace [s] = s := rfl

/-- The `chunks` parameter of the main loop is a pure accumulator. -/
theorem chunkAux_acc (cs ov : Nat) (sents : List String) :
    ∀ (cur : List String) (len : Nat) (chunks : List (List String)),
      chunkAux cs ov sents cur len chunks = chunks ++ chunkAux cs ov sents cur len [] := by
  induction sents with
  | nil =>
    intro cur len chunks
    simp only [chunkAux]
    split <;> simp
  | cons s rest ih =>
    intro cur len chunks
    simp only [chunkAux]
    split
    · rw [ih (overlapSeed ov cur ++ [s]) (wordSum (overlapSeed ov cur) + wordCount s) (chunks ++ [cur]),
        ih (overlapSeed ov cur ++ [s]) (wordSum (overlapSeed ov cur) + wordCount s) ([] ++ [cur])]
      simp
    · rw [ih (cur ++ [s]) (len + wordCount s) chunks]

/-! ### Claim C3 -/

/-- Claim C3 counterexample: on the empty string (with the source defaults
`chunk_size=1024`, `overlap=128`) `chunk_text` does not return the empty
sequence of chunks — it returns the one-element sequence containing the
empty chunk. -/
theorem c3_counterexample : chunk_text "" 1024 128 ≠ [] := by decide

/-- Claim C3 (amended): `chunk_text` on the empty string returns the
one-element sequence containing the empty string (for every chunk size and
overlap), and on a text consisting of a single sentence whose word count
exceeds the chunk size it returns exactly that sentence as its only chunk. -/
theorem c3_degenerate (cs ov : Nat) (text s : String) :
    chunk_text "" cs ov = [""]
    ∧ (splitSentences text = [s] → cs < wordCount s → chunk_text text cs ov = [s]) := by
  constructor
  · show (chunkAux cs ov (splitSentences "") [] 0 []).map joinSpace = [""]
    have h1 : splitSentences "" = [""] := rfl
    rw [h1]
    simp only [chunkAux]
    rw [if_neg (by simp), if_neg (by simp)]
    rfl
  · intro h1 _h2
    show (chunkAux cs ov (splitSentences text) [] 0 []).map joinSpace = [s]
    rw [h1]
    simp only [chunkAux]
    rw [if_neg (by simp), if_neg (by simp)]
    simp [joinSpace_single]

/-- Claim C3 witness for the amended statement. -/
theorem c3_witness :
    splitSentences "aa bb" = ["aa bb"] ∧ 1 < wordCount "aa bb"
    ∧ chunk_text "aa bb" 1 0 = ["aa bb"] :=
  ⟨by decide, by decide, (c3_degenerate 1 0 "aa bb" "aa bb").2 (by decide) (by decide)⟩

/-! ### Claim C5 -/

/-- Claim C5: if any workflow stage raises, `process_query` returns the
error response — an error-describing answer with empty related cases, legal
issues, reasoning steps and processing info — and an error in any of the
four stages makes the whole pipeline error (no partial result is kept). -/
theorem c5_error_path (n1 n2 n3 n4 : AgentState → Except String AgentState)
    (q e : String) (st : AgentState) :
    (runPipeline n1 n2 n3 n4 (initialState q) = .error e →
       processQueryAbs n1 n2 n3 n4 q = errorResponse q e)
    ∧ (n1 st = .error e → runPipeline n1 n2 n3 n4 st = .error e)
    ∧ (∀ s1, n1 st = .ok s1 → n2 s1 = .error e → runPipeline n1 n2 n3 n4 st = .error e)
    ∧ (∀ s1 s2, n1 st = .ok s1 → n2 s1 = .ok s2 → n3 s2 = .error e →
         runPipeline n1 n2 n3 n4 st = .error e)
    ∧ (∀ s1 s2 s3, n1 st = .ok s1 → n2 s1 = .ok s2 → n3 s2 = .ok s3 → n4 s3 = .error e →
         runPipeline n1 n2 n3 n4 st = .error e) := by
  refine ⟨?_, ?_, ?_, ?_, ?_⟩
  · intro h
    simp only [processQueryAbs, h]
    rfl
  · intro h
    simp [runPipeline, h, Except.bind]
  · intro s1 h1 h2
    simp [runPipeline, h1, h2, Except.bind]
  · intro s1 s2 h1 h2 h3
    simp [runPipeline, h1, h2, h3, Except.bind]
  · intro s1 s2 s3 h1 h2 h3 h4
    simp [runPipeline, h1, h2, h3, h4, Except.bind]

/-- Claim C5 witness: a first stage that raises, concretely. -/
theorem c5_witness :
    runPipeline (fun _ => .error "boom") (fun s => .ok s) (fun s => .ok s) (fun s => .ok s)
        (initialState "q") = .error "boom"
    ∧ processQueryAbs (fun _ => .error "boom") (fun s => .ok s) (fun s => .ok s) (fun s => .ok s)
        "q" = errorResponse "q" "boom" :=
  ⟨rfl,
   (c5_error_path (fun _ => .error "boom") (fun s => .ok s) (fun s => .ok s) (fun s => .ok s)
       "q" "boom" (initialState "q")).1 rfl⟩

end NyayaSahayak

namespace NyayaSahayak

/-! ### Claim C6 -/

/-- Claim C6: in the query-analysis stage, if the line parser collects zero
dash items for the legal-issues section then `legal_issues` becomes the
one-element list containing the raw query, likewise independently for
keywords, and both resulting lists are always non-empty. -/
theorem c6_parser_fallback (llm : String → String → String) (st : AgentState) :
    ((parseSectionsAux
        (splitOnNl (llm queryAnalysisSystemPrompt ("Analyze this legal query: " ++ st.query)))
        ParseSection.noSec).1 = [] →
      (queryAnalysisNode llm st).legal_issues = [st.query])
    ∧ ((parseSectionsAux
        (splitOnNl (llm queryAnalysisSystemPrompt ("Analyze this legal query: " ++ st.query)))
        ParseSection.noSec).2 = [] →
      (queryAnalysisNode llm st).keywords = [st.query])
    ∧ (queryAnalysisNode llm st).legal_issues ≠ []
    ∧ (queryAnalysisNode llm st).keywords ≠ [] := by
  refine ⟨?_, ?_, ?_, ?_⟩
  · intro h
    simp [queryAnalysisNode, h]
  · intro h
    simp [queryAnalysisNode, h]
  · simp only [queryAnalysisNode]
    split <;> simp_all
  · simp only [queryAnalysisNode]
    split <;> simp_all

/-- Claim C6 witness: a model response with no dash lines at all. -/
theorem c6_witness :
    (parseSectionsAux
      (splitOnNl ((fun _ _ => "no structured output") queryAnalysisSystemPrompt
        ("Analyze this legal query: " ++ (initialState "habeas").query)))
      ParseSection.noSec).1 = []
    ∧ (queryAnalysisNode (fun _ _ => "no structured output") (initialState "habeas")).legal_issues
        = [(initialState "habeas").query] :=
  ⟨by decide,
   (c6_parser_fallback (fun _ _ => "no structured output") (initialState "habeas")).1 (by decide)⟩

/-! ### Claim C10 -/

/-- Chunk-count bound for the main loop. -/
theorem chunkAux_length_le (cs ov : Nat) (sents : List String) :
    ∀ (cur : List String) (len : Nat) (chunks : List (List String)),
      (chunkAux cs ov sents cur len chunks).length
        ≤ chunks.length + sents.length + (if cur = [] then 0 else 1) := by
  induction sents with
  | nil =>
    intro cur len chunks
    simp only [chunkAux]
    split <;> simp_all
  | cons s rest ih =>
    intro cur len chunks
    simp only [chunkAux]
    split
    · rename_i hc
      have h := ih (overlapSeed ov cur ++ [s]) (wordSum (overlapSeed ov cur) + wordCount s)
        (chunks ++ [cur])
      rw [if_neg (by simp)] at h
      rw [if_neg hc.2]
      simp only [List.length_append, List.length_cons, List.length_nil] at *
      omega
    · have h := ih (cur ++ [s]) (len + wordCount s) chunks
      rw [if_neg (by simp)] at h
      simp only [List.length_cons] at *
      split <;> omega

/-- Claim C10: `chunk_text` is total — a terminating function on every
input, for every chunk size and overlap (including `overlap ≥ chunkSize`
and zero parameters) — and the number of chunks it returns is bounded by
the number of sentences of the input, so the loops are bounded by the
finite sentence list. -/
theorem c10_chunk_bound (text : String) (cs ov : Nat) :
    (chunk_text text cs ov).length ≤ (splitSentences text).length := by
  show ((chunkSentences (splitSentences text) cs ov).map joinSpace).length ≤ _
  rw [List.length_map]
  have h := chunkAux_length_le cs ov (splitSentences text) [] 0 []
  simpa [chunkSentences] using h

end NyayaSahayak

namespace NyayaSahayak

/-! ### Claim C7 -/

theorem getD_map_of_lt {α β : Type} (f : α → β) (l : List α) (i : Nat) (d : β) (d' : α)
    (h : i < l.length) : (l.map f).getD i d = f (l.getD i d') := by
  induction l generalizing i with
  | nil => simp at h
  | cons a t ih =>
    cases i with
    | zero => rfl
    | succ j =>
      simp only [List.map_cons, List.getD_cons_succ]
      exact ih j (by simpa using h)

theorem getD_take_of_lt {α : Type} (l : List α) (n i : Nat) (d : α) (h : i < n) :
    (l.take n).getD i d = l.getD i d := by
  induction l generalizing n i with
  | nil => simp
  | cons a t ih =>
    cases n with
    | zero => omega
    | succ m =>
      cases i with
      | zero => rfl
      | succ j =>
        simp only [List.take_succ_cons, List.getD_cons_succ]
        exact ih m j (by omega)

/-- Claim C7: the summarization stage processes at most the first five
retrieved chunks, produces exactly one summary per processed chunk in rank
order, each summary prefixed with its source title in brackets and built
from a prompt that carries the chunk text truncated to 2000 characters; and
on a successful run `cases_analyzed` equals the number of summaries. -/
theorem c7_summarizer (llm : String → String → String) (st : AgentState) :
    (summarizerNode llm st).case_summaries.length = min st.retrieved_cases.length 5
    ∧ (∀ i, i < (summarizerNode llm st).case_summaries.length →
        (summarizerNode llm st).case_summaries.getD i "" =
          "[" ++ optToStr (st.retrieved_cases.getD i defaultDoc).metadata.title ++ "]: "
            ++ llm summarizerSystemPrompt (summarizerUserPrompt (st.retrieved_cases.getD i defaultDoc)))
    ∧ (∀ d : RetrievedDoc, ∃ pre post, summarizerUserPrompt d = pre ++ d.text.take 2000 ++ post)
    ∧ (∀ (retrieve : String → Except String (List RetrievedDoc)) (q : String) (fs : AgentState),
        workflowInvoke llm retrieve (initialState q) = .ok fs →
          fs.case_summaries.length = min fs.retrieved_cases.length 5
          ∧ (lgProcessQuery llm retrieve q).processing_info.lookup "cases_analyzed"
              = some fs.case_summaries.length) := by
  refine ⟨?_, ?_, ?_, ?_⟩
  · simp [summarizerNode, Nat.min_comm]
  · intro i h
    have hlen : (summarizerNode llm st).case_summaries.length
        = min 5 st.retrieved_cases.length := by simp [summarizerNode]
    rw [hlen] at h
    have h5 : i < 5 := lt_of_lt_of_le h (Nat.min_le_left _ _)
    have hl : i < st.retrieved_cases.length := lt_of_lt_of_le h (Nat.min_le_right _ _)
    simp only [summarizerNode]
    rw [getD_map_of_lt _ _ _ _ defaultDoc (by simpa [Nat.lt_min] using ⟨h5, hl⟩),
      getD_take_of_lt _ _ _ _ h5]
  · intro d
    exact ⟨"Case: " ++ optToStr d.metadata.title ++ "\nCitation: " ++ optToStr d.metadata.citation
        ++ "\n\nText:\n",
      "\n\nProvide a brief summary of the key legal points.", rfl⟩
  · intro retrieve q fs h
    simp only [workflowInvoke, runPipeline, okStage, Except.bind] at h
    cases hr : retrieve (searchQuery (queryAnalysisNode llm (initialState q))) with
    | error e =>
      rw [retrievalNodeE, hr] at h
      simp at h
    | ok docs =>
      rw [retrievalNodeE, hr] at h
      simp only [Except.ok.injEq] at h
      subst h
      constructor
      · simp [legalAnalystNode, summarizerNode, Nat.min_comm]
      · simp only [lgProcessQuery, processQueryAbs, runPipeline, okStage, Except.bind,
          retrievalNodeE, hr]
        rfl

/-- Claim C7 witness: one retrieved doc, a constant model. -/
theorem c7_witness :
    0 < (summarizerNode (fun _ _ => "S")
        { initialState "q" with
          retrieved_cases := [{ text := "body", metadata :=
            { case_id := some "1", title := some "T", citation := some "C",
              court := some "Ct", judge := some "J", decision_date := some "D" } }] }).case_summaries.length
    ∧ (summarizerNode (fun _ _ => "S")
        { initialState "q" with
          retrieved_cases := [{ text := "body", metadata :=
            { case_id := some "1", title := some "T", citation := some "C",
              court := some "Ct", judge := some "J", decision_date := some "D" } }] }).case_summaries.getD 0 ""
      = "[" ++ optToStr (({ initialState "q" with
          retrieved_cases := [{ text := "body", metadata :=
            { case_id := some "1", title := some "T", citation := some "C",
              court := some "Ct", judge := some "J", decision_date := some "D" } }] } : AgentState).retrieved_cases.getD 0 defaultDoc).metadata.title ++ "]: "
        ++ (fun _ _ => "S") summarizerSystemPrompt
            (summarizerUserPrompt (({ initialState "q" with
          retrieved_cases := [{ text := "body", metadata :=
            { case_id := some "1", title := some "T", citation := some "C",
              court := some "Ct", judge := some "J", decision_date := some "D" } }] } : AgentState).retrieved_cases.getD 0 defaultDoc)) :=
  ⟨by decide,
   (c7_summarizer (fun _ _ => "S")
      { initialState "q" with
        retrieved_cases := [{ text := "body", metadata :=
          { case_id := some "1", title := some "T", citation := some "C",
            court := some "Ct", judge := some "J", decision_date := some "D" } }] }).2.1 0 (by decide)⟩

end NyayaSahayak

namespace NyayaSahayak

/-! ### Claim C4 -/

theorem ragRelatedAux_eq_lg (docs : List RetrievedDoc) :
    ∀ seen, ragRelatedAux docs seen = lgRelatedAux docs seen := by
  induction docs with
  | nil => intro seen; rfl
  | cons d rest ih =>
    intro seen
    simp only [ragRelatedAux, lgRelatedAux]
    split <;> rw [ih]

theorem lgRelatedAux_eq_map (docs : List RetrievedDoc) :
    ∀ seen, lgRelatedAux docs seen = (firstOccAux docs seen).map mkRelatedCase := by
  induction docs with
  | nil => intro seen; rfl
  | cons d rest ih =>
    intro seen
    simp only [lgRelatedAux, firstOccAux]
    split <;> simp [ih]

theorem firstOccAux_sublist (docs : List RetrievedDoc) :
    ∀ seen, (firstOccAux docs seen).Sublist docs := by
  induction docs with
  | nil => intro seen; simp [firstOccAux]
  | cons d rest ih =>
    intro seen
    simp only [firstOccAux]
    split
    · exact (ih seen).cons d
    · exact (ih (d.metadata.case_id :: seen)).cons₂ d

theorem firstOccAux_nodup (docs : List RetrievedDoc) :
    ∀ seen, ((firstOccAux docs seen).map fun d => d.metadata.case_id).Nodup
      ∧ ∀ x ∈ (firstOccAux docs seen).map fun d => d.metadata.case_id, x ∉ seen := by
  induction docs with
  | nil => intro seen; simp [firstOccAux]
  | cons d rest ih =>
    intro seen
    simp only [firstOccAux]
    split
    · exact ih seen
    · rename_i hns
      obtain ⟨hnd, hmem⟩ := ih (d.metadata.case_id :: seen)
      refine ⟨?_, ?_⟩
      · simp only [List.map_cons, List.nodup_cons]
        exact ⟨fun hx => (hmem _ hx) (List.mem_cons_self _ _), hnd⟩
      · intro x hx
        simp only [List.map_cons, List.mem_cons] at hx
        rcases hx with rfl | hx
        · exact hns
        · intro hxs
          exact (hmem x hx) (List.mem_cons_of_mem _ hxs)

theorem firstOccAux_filter (docs : List RetrievedDoc) (cid : Option String) :
    ∀ seen,
      (cid ∉ seen →
        (firstOccAux docs seen).filter (fun d => d.metadata.case_id == cid)
          = (docs.filter fun d => d.metadata.case_id == cid).take 1)
      ∧ (cid ∈ seen →
        (firstOccAux docs seen).filter (fun d => d.metadata.case_id == cid) = []) := by
  induction docs with
  | nil => intro seen; simp [firstOccAux]
  | cons d rest ih =>
    intro seen
    simp only [firstOccAux]
    constructor
    · intro hout
      split
      · rename_i hin
        have hne : ¬ (d.metadata.case_id == cid) = true := by
          intro hbe
          exact hout (beq_iff_eq.mp hbe ▸ hin)
        rw [List.filter_cons_of_neg (by simpa using hne)]
        exact ((ih seen).1 hout)
      · rename_i hnin
        by_cases hdc : d.metadata.case_id = cid
        · subst hdc
          rw [List.filter_cons_of_pos (by simp), List.filter_cons_of_pos (by simp)]
          rw [(ih (d.metadata.case_id :: seen)).2 (List.mem_cons_self _ _)]
          simp
        · rw [List.filter_cons_of_neg (by simpa using hdc),
            List.filter_cons_of_neg (by simpa using hdc)]
          exact (ih (d.metadata.case_id :: seen)).1 (by
            intro hmem
            rcases List.mem_cons.mp hmem with h | h
            · exact hdc h.symm
            · exact hout h)
    · intro hin
      split
      · exact (ih seen).2 hin
      · rename_i hnin
        have hdc : ¬ d.metadata.case_id = cid := fun h => hnin (h ▸ hin)
        rw [List.filter_cons_of_neg (by simpa using hdc)]
        exact (ih (d.metadata.case_id :: seen)).2 (List.mem_cons_of_mem _ hin)

/-- Claim C4: both the agentic retrieval stage and the direct RAG path
derive related cases by the same rule; the result is the first-occurrence
doc per distinct `case_id` (ranked order preserved, so the entries appear
in order of first appearance and carry the first occurrence's title,
citation, court and decision date), its case ids are pairwise distinct, and
for every case id exactly the first matching doc of the ranked input
contributes. -/
theorem c4_dedup (docs : List RetrievedDoc) :
    ragRelatedCases docs = lgRelatedCases docs
    ∧ lgRelatedCases docs = (firstOcc docs).map mkRelatedCase
    ∧ ((firstOcc docs).map fun d => d.metadata.case_id).Nodup
    ∧ (firstOcc docs).Sublist docs
    ∧ ∀ cid : Option String,
        (firstOcc docs).filter (fun d => d.metadata.case_id == cid)
          = (docs.filter fun d => d.metadata.case_id == cid).take 1 := by
  refine ⟨?_, ?_, ?_, ?_, ?_⟩
  · exact ragRelatedAux_eq_lg docs []
  · exact lgRelatedAux_eq_map docs []
  · exact (firstOccAux_nodup docs []).1
  · exact firstOccAux_sublist docs []
  · intro cid
    exact (firstOccAux_filter docs cid []).1 (by simp)

end NyayaSahayak

namespace NyayaSahayak

/-! ### Claim C8 -/

/-- Claim C8 counterexample: a case record whose `year` is the integer 2020
yields indexed chunk metadata whose `year` value is not string-typed — the
code stringifies `case_id` and `chunk_index` but copies `year` as-is. -/
theorem c8_counterexample :
    (indexMetadatas
      [{ id := 0, title := .str "T", citation := .str "Cit", court := .str "Co",
         judge := .str "J", decision_date := .str "D", year := .int 2020, text := "x" }]
      1024).map (fun m => m.year.isStr) = [false] := by decide

/-- Claim C8 (amended): in the metadata written for each chunk, `case_id`
and `chunk_index` are always string-typed (they pass through `str(...)`),
while the remaining fields — including `year` — are copied unchanged from
the source case record, so they are string-typed exactly when the corpus
supplies them as strings. -/
theorem c8_metadata_typing (cases : List CaseRecord) (csz : Nat) (m : ChunkMeta)
    (hm : m ∈ indexMetadatas cases csz) :
    m.case_id.isStr = true ∧ m.chunk_index.isStr = true
    ∧ ∃ c, c ∈ cases ∧ m.title = c.title ∧ m.citation = c.citation ∧ m.court = c.court
        ∧ m.judge = c.judge ∧ m.decision_date = c.decision_date ∧ m.year = c.year := by
  simp only [indexMetadatas, indexTriples, List.mem_map, List.mem_flatMap] at hm
  obtain ⟨t, ⟨c, hc, p, _hp, ht⟩, hmt⟩ := hm
  subst ht
  subst hmt
  exact ⟨rfl, rfl, c, hc, rfl, rfl, rfl, rfl, rfl, rfl⟩

/-- Claim C8 witness for the amended statement: a fully string-typed case. -/
theorem c8_witness :
    mkChunkMeta
        { id := 0, title := .str "T", citation := .str "Cit", court := .str "Co",
          judge := .str "J", decision_date := .str "D", year := .str "2020", text := "x" } 0
      ∈ indexMetadatas
        [{ id := 0, title := .str "T", citation := .str "Cit", court := .str "Co",
           judge := .str "J", decision_date := .str "D", year := .str "2020", text := "x" }]
        1024
    ∧ (mkChunkMeta
        { id := 0, title := .str "T", citation := .str "Cit", court := .str "Co",
          judge := .str "J", decision_date := .str "D", year := .str "2020", text := "x" }
        0).case_id.isStr = true :=
  ⟨by decide,
   (c8_metadata_typing
      [{ id := 0, title := .str "T", citation := .str "Cit", court := .str "Co",
         judge := .str "J", decision_date := .str "D", year := .str "2020", text := "x" }]
      1024 _ (by decide)).1⟩

end NyayaSahayak

namespace NyayaSahayak

/-! ### Claim C9 -/

theorem upsertList_append (store : VectorStore) (a b : List (String × ChunkMeta × String)) :
    upsertList store (a ++ b) = upsertList (upsertList store a) b := by
  simp [upsertList, List.foldl_append]

theorem batchListAux_flatten {α : Type} (bs : Nat) (hbs : 1 ≤ bs) :
    ∀ (fuel : Nat) (l : List α), l.length ≤ fuel → (batchListAux bs fuel l).flatten = l := by
  intro fuel
  induction fuel with
  | zero =>
    intro l hl
    have : l = [] := List.length_eq_zero.mp (Nat.le_zero.mp hl)
    subst this
    rfl
  | succ n ih =>
    intro l hl
    match l with
    | [] => rfl
    | a :: rest =>
      simp only [batchListAux, List.flatten_cons]
      rw [ih ((a :: rest).drop bs) (by
        rw [List.length_drop]
        simp only [List.length_cons] at hl ⊢
        omega)]
      exact List.take_append_drop bs (a :: rest)

theorem foldl_upsert_batches (bl : List (List (String × ChunkMeta × String))) :
    ∀ store : VectorStore,
      bl.foldl (fun acc b => upsertList acc b) store = upsertList store bl.flatten := by
  induction bl with
  | nil => intro store; rfl
  | cons b rest ih =>
    intro store
    simp only [List.foldl_cons, List.flatten_cons]
    rw [ih, upsertList_append]

theorem indexCorpus_eq_upsertList (store : VectorStore) (cases : List CaseRecord) (csz : Nat) :
    indexCorpus store cases csz = upsertList store (indexTriples cases csz) := by
  rw [indexCorpus, foldl_upsert_batches, batchList,
    batchListAux_flatten 100 (by omega) _ _ (Nat.le_refl _)]

theorem upsertList_eval (l : List (String × ChunkMeta × String)) :
    ∀ (store : VectorStore) (k : String),
      upsertList store l k =
        match lastWrite l k with
        | some e => some e
        | none => store k := by
  induction l with
  | nil => intro store k; rfl
  | cons t rest ih =>
    intro store k
    show upsertList (upsertOne store t.1 t.2) rest k = _
    rw [ih]
    simp only [lastWrite]
    cases lastWrite rest k with
    | some e => rfl
    | none =>
      simp only [upsertOne]
      split <;> rfl

/-- Claim C9: `indexCorpus` writes every chunk under the composite id
`case_{caseId}_chunk_{chunkIndex}`; the batched writes equal one bulk
upsert of all triples in order; and re-indexing the same corpus produces
the same store as indexing it once — id collisions resolve as overwrites,
never as duplicates or errors. -/
theorem c9_reindex (store : VectorStore) (cases : List CaseRecord) (csz : Nat) :
    ((indexTriples cases csz).map fun t => t.1)
      = (cases.flatMap fun c =>
          (List.range (chunk_text c.text csz 128).length).map (compositeId c.id))
    ∧ indexCorpus store cases csz = upsertList store (indexTriples cases csz)
    ∧ indexCorpus (indexCorpus store cases csz) cases csz = indexCorpus store cases csz := by
  refine ⟨?_, indexCorpus_eq_upsertList store cases csz, ?_⟩
  · simp only [indexTriples, List.map_flatMap, List.map_map]
    congr 1
    funext c
    rw [← List.enum_map_fst (chunk_text c.text csz 128), List.map_map]
    rfl
  · simp only [indexCorpus_eq_upsertList]
    funext k
    rw [upsertList_eval, upsertList_eval]
    cases h : lastWrite (indexTriples cases csz) k with
    | some e => rfl
    | none => rfl

end NyayaSahayak

namespace NyayaSahayak

/-! ### Overlap-walk lemmas (for C1 and C2) -/

theorem wordSum_cons (a : String) (l : List String) :
    wordSum (a :: l) = wordCount a + wordSum l := by
  simp [wordSum]

theorem overlapTake_exists_rest (ov : Nat) (l : List String) :
    ∀ acc : Nat, ∃ r, l = overlapTake ov acc l ++ r := by
  induction l with
  | nil => intro acc; exact ⟨[], rfl⟩
  | cons s rest ih =>
    intro acc
    simp only [overlapTake]
    split
    · obtain ⟨r, hr⟩ := ih (acc + wordCount s)
      exact ⟨r, by rw [List.cons_append, ← hr]⟩
    · exact ⟨s :: rest, rfl⟩

theorem overlapSeed_suffix (ov : Nat) (c : List String) :
    ∃ t, c = t ++ overlapSeed ov c := by
  obtain ⟨r, hr⟩ := overlapTake_exists_rest ov c.reverse 0
  refine ⟨r.reverse, ?_⟩
  calc c = c.reverse.reverse := (List.reverse_reverse c).symm
    _ = (overlapTake ov 0 c.reverse ++ r).reverse := by rw [← hr]
    _ = r.reverse ++ (overlapTake ov 0 c.reverse).reverse := by rw [List.reverse_append]
    _ = r.reverse ++ overlapSeed ov c := rfl

theorem overlapTake_wordSum (ov : Nat) (l : List String) :
    ∀ acc : Nat, acc ≤ ov → acc + wordSum (overlapTake ov acc l) ≤ ov := by
  induction l with
  | nil => intro acc hacc; simpa [wordSum] using hacc
  | cons s rest ih =>
    intro acc hacc
    simp only [overlapTake]
    split
    · rename_i hs
      rw [wordSum_cons]
      have := ih (acc + wordCount s) hs
      omega
    · simpa [wordSum] using hacc

theorem wordSum_reverse (l : List String) : wordSum l.reverse = wordSum l := by
  simp [wordSum, List.sum_reverse]

theorem overlapSeed_wordSum (ov : Nat) (c : List String) :
    wordSum (overlapSeed ov c) ≤ ov := by
  have h := overlapTake_wordSum ov c.reverse 0 (Nat.zero_le ov)
  rw [overlapSeed, wordSum_reverse]
  omega

theorem overlapTake_maximal (ov : Nat) (p : List String) :
    ∀ (r : List String) (acc : Nat), acc + wordSum p ≤ ov →
      p.length ≤ (overlapTake ov acc (p ++ r)).length := by
  induction p with
  | nil => intro r acc _; simp
  | cons s p' ih =>
    intro r acc hsum
    rw [wordSum_cons] at hsum
    have hs : acc + wordCount s ≤ ov := by omega
    simp only [List.cons_append, overlapTake, if_pos hs, List.length_cons]
    exact Nat.succ_le_succ (ih r (acc + wordCount s) (by omega))

theorem overlapSeed_maximal (ov : Nat) (c u t : List String)
    (hc : c = t ++ u) (hw : wordSum u ≤ ov) :
    u.length ≤ (overlapSeed ov c).length := by
  have hrev : c.reverse = u.reverse ++ t.reverse := by rw [hc, List.reverse_append]
  have h := overlapTake_maximal ov u.reverse t.reverse 0
    (by rw [wordSum_reverse]; omega)
  rw [← hrev] at h
  simpa [overlapSeed] using h

theorem overlapTake_mem (ov : Nat) (l : List String) :
    ∀ (acc : Nat) (x : String), x ∈ overlapTake ov acc l → x ∈ l := by
  induction l with
  | nil => intro acc x hx; simp [overlapTake] at hx
  | cons s rest ih =>
    intro acc x hx
    simp only [overlapTake] at hx
    split at hx
    · rcases List.mem_cons.mp hx with h | h
      · exact h ▸ List.mem_cons_self _ _
      · exact List.mem_cons_of_mem _ (ih _ x h)
    · simp at hx

theorem overlapSeed_mem (ov : Nat) (c : List String) (x : String)
    (hx : x ∈ overlapSeed ov c) : x ∈ c := by
  rw [overlapSeed, List.mem_reverse] at hx
  exact List.mem_reverse.mp (overlapTake_mem ov c.reverse 0 x hx)

/-! ### The chunk chain invariant (for C1 and C2) -/

theorem chunkChain_of_run (cs ov : Nat) (sents : List String) :
    ∀ (cur sp n : List String) (len : Nat),
      len = wordSum cur → cur = sp ++ n → budgetOk cs n →
      chunkChain cs ov sp (chunkAux cs ov sents cur len []) := by
  induction sents with
  | nil =>
    intro cur sp n len _hlen hcur hq
    simp only [chunkAux, List.nil_append]
    split
    · exact trivial
    · exact ⟨⟨n, hcur, hq⟩, trivial⟩
  | cons s rest ih =>
    intro cur sp n len hlen hcur hq
    simp only [chunkAux, List.nil_append]
    split
    · rename_i hcond
      rw [chunkAux_acc, List.singleton_append]
      refine ⟨⟨n, hcur, hq⟩, ?_⟩
      apply ih (overlapSeed ov cur ++ [s]) (overlapSeed ov cur) [s]
        (wordSum (overlapSeed ov cur) + wordCount s)
      · rw [wordSum_append, wordSum_single]
      · rfl
      · rcases le_or_lt (wordCount s) cs with h | h
        · exact Or.inl (by rw [wordSum_single]; exact h)
        · exact Or.inr ⟨s, rfl, h⟩
    · rename_i hcond
      apply ih (cur ++ [s]) sp (n ++ [s]) (len + wordCount s)
      · rw [hlen, wordSum_append, wordSum_single]
      · rw [hcur, List.append_assoc]
      · by_cases hc0 : cur = []
        · have hn : n = [] := (List.append_eq_nil.mp (hc0 ▸ hcur.symm)).2
          subst hn
          rcases le_or_lt (wordCount s) cs with h | h
          · exact Or.inl (by rw [List.nil_append, wordSum_single]; exact h)
          · exact Or.inr ⟨s, by rw [List.nil_append], h⟩
        · have hle : len + wordCount s ≤ cs := by
            by_contra hgt
            exact hcond ⟨by omega, hc0⟩
          refine Or.inl ?_
          rw [wordSum_append, wordSum_single]
          have hns : wordSum n ≤ wordSum cur := by
            rw [hcur, wordSum_append]; omega
          rw [hlen] at hle
          omega

theorem chunkChain_getD (cs ov : Nat) :
    ∀ (l : List (List String)) (sp : List String), chunkChain cs ov sp l →
      ∀ i, i + 1 < l.length →
        ∃ nn, l.getD (i + 1) [] = overlapSeed ov (l.getD i []) ++ nn ∧ budgetOk cs nn := by
  intro l
  induction l with
  | nil => intro sp _ i hi; simp at hi
  | cons c rest ih =>
    intro sp hch i hi
    obtain ⟨_hc, hrest⟩ := hch
    cases i with
    | zero =>
      cases rest with
      | nil => simp at hi
      | cons c2 r2 =>
        obtain ⟨⟨nn, hnn, hq⟩, _⟩ := hrest
        exact ⟨nn, by simpa using hnn, hq⟩
    | succ j =>
      obtain ⟨nn, h1, h2⟩ := ih (overlapSeed ov c) hrest j (by simpa using hi)
      exact ⟨nn, by simpa using h1, h2⟩

theorem chunkChain_head (cs ov : Nat) (l : List (List String))
    (h : chunkChain cs ov [] l) (hl : 0 < l.length) : budgetOk cs (l.getD 0 []) := by
  cases l with
  | nil => simp at hl
  | cons c rest =>
    obtain ⟨⟨n, hn, hq⟩, _⟩ := h
    rw [List.getD_cons_zero, hn, List.nil_append]
    exact hq

theorem chunkAux_mem (cs ov : Nat) (P : String → Prop) (sents : List String) :
    ∀ (cur : List String) (len : Nat) (chunks : List (List String)),
      (∀ x ∈ cur, P x) → (∀ x ∈ sents, P x) → (∀ c ∈ chunks, ∀ x ∈ c, P x) →
      ∀ c ∈ chunkAux cs ov sents cur len chunks, ∀ x ∈ c, P x := by
  induction sents with
  | nil =>
    intro cur len chunks hcur _hs hchunks c hc x hx
    simp only [chunkAux] at hc
    split at hc
    · exact hchunks c hc x hx
    · rcases List.mem_append.mp hc with h | h
      · exact hchunks c h x hx
      · have hceq : c = cur := by simpa using h
        exact hcur x (hceq ▸ hx)
  | cons s rest ih =>
    intro cur len chunks hcur hs hchunks c hc x hx
    simp only [chunkAux] at hc
    split at hc
    · refine ih _ _ _ ?_ ?_ ?_ c hc x hx
      · intro y hy
        rcases List.mem_append.mp hy with h | h
        · exact hcur y (overlapSeed_mem ov cur y h)
        · have hys : y = s := by simpa using h
          exact hys ▸ hs s (List.mem_cons_self _ _)
      · intro y hy
        exact hs y (List.mem_cons_of_mem _ hy)
      · intro d hd y hy
        rcases List.mem_append.mp hd with h | h
        · exact hchunks d h y hy
        · have hdc : d = cur := by simpa using h
          exact hcur y (hdc ▸ hy)
    · refine ih _ _ _ ?_ ?_ hchunks c hc x hx
      · intro y hy
        rcases List.mem_append.mp hy with h | h
        · exact hcur y h
        · have hys : y = s := by simpa using h
          exact hys ▸ hs s (List.mem_cons_self _ _)
      · intro y hy
        exact hs y (List.mem_cons_of_mem _ hy)

theorem getD_mem_of_lt {α : Type} (l : List α) (i : Nat) (d : α) (h : i < l.length) :
    l.getD i d ∈ l := by
  induction l generalizing i with
  | nil => simp at h
  | cons a t ih =>
    cases i with
    | zero => simp
    | succ j =>
      simp only [List.getD_cons_succ]
      exact List.mem_cons_of_mem _ (ih j (by simpa using h))

end NyayaSahayak

namespace NyayaSahayak

/-! ### Claim C1 -/

/-- Claim C1: for every chunk except possibly the last, the word count of
the chunk's own new content — the sentences added after the overlap seed —
is at most the chunk size, unless that new content is a single sentence
alone exceeding the chunk size, in which case the sentence is one of the
input's sentences kept whole (never truncated or split). -/
theorem c1_chunk_budget (text : String) (cs ov i : Nat)
    (h : i + 1 < (chunkSentences (splitSentences text) cs ov).length) :
    wordSum (newContent ov (chunkSentences (splitSentences text) cs ov) i) ≤ cs
    ∨ ∃ s, newContent ov (chunkSentences (splitSentences text) cs ov) i = [s]
        ∧ cs < wordCount s ∧ s ∈ splitSentences text := by
  have hchain : chunkChain cs ov [] (chunkSentences (splitSentences text) cs ov) :=
    chunkChain_of_run cs ov (splitSentences text) [] [] [] 0 rfl rfl
      (Or.inl (Nat.zero_le cs))
  have hmem : ∀ c ∈ chunkSentences (splitSentences text) cs ov,
      ∀ x ∈ c, x ∈ splitSentences text := by
    apply chunkAux_mem cs ov (fun x => x ∈ splitSentences text) (splitSentences text) [] 0 []
    · intro x hx; simp at hx
    · intro x hx; exact hx
    · intro c hc; simp at hc
  cases i with
  | zero =>
    have hq := chunkChain_head cs ov _ hchain (by omega)
    rw [newContent, if_pos rfl]
    rcases hq with hle | ⟨s, hs, hlt⟩
    · exact Or.inl hle
    · refine Or.inr ⟨s, hs, hlt, ?_⟩
      have h0 := getD_mem_of_lt (chunkSentences (splitSentences text) cs ov) 0 [] (by omega)
      exact hmem _ h0 s (by rw [hs]; simp)
  | succ j =>
    obtain ⟨nn, hdec, hq⟩ := chunkChain_getD cs ov _ [] hchain j (by omega)
    have hnc : newContent ov (chunkSentences (splitSentences text) cs ov) (j + 1) = nn := by
      rw [newContent, if_neg (by omega)]
      simp only [Nat.add_sub_cancel]
      rw [hdec, List.drop_left]
    rw [hnc]
    rcases hq with hle | ⟨s, hs, hlt⟩
    · exact Or.inl hle
    · refine Or.inr ⟨s, hs, hlt, ?_⟩
      have h1 := getD_mem_of_lt (chunkSentences (splitSentences text) cs ov) (j + 1) [] (by omega)
      refine hmem _ h1 s ?_
      rw [hdec]
      exact List.mem_append_right _ (by rw [hs]; simp)

/-- Claim C1 witness: three two-word sentences, budget 3, overlap 1. -/
theorem c1_witness :
    0 + 1 < (chunkSentences (splitSentences "a b. c d. e f.") 3 1).length
    ∧ (wordSum (newContent 1 (chunkSentences (splitSentences "a b. c d. e f.") 3 1) 0) ≤ 3
      ∨ ∃ s, newContent 1 (chunkSentences (splitSentences "a b. c d. e f.") 3 1) 0 = [s]
          ∧ 3 < wordCount s ∧ s ∈ splitSentences "a b. c d. e f.") :=
  ⟨by decide, c1_chunk_budget "a b. c d. e f." 3 1 0 (by decide)⟩

/-! ### Claim C2 -/

/-- Claim C2: in a multi-chunk result (with overlap below the chunk size),
the overlap seed taken from any closed chunk is a suffix of that chunk made
of whole sentences, its cumulative word count stays within the overlap
budget, it is the longest such suffix ("exactly the trailing run"), and the
next chunk begins with exactly that run in original order. -/
theorem c2_overlap_seed (text : String) (cs ov : Nat)
    (_hov : ov < cs) (_hlen : 2 ≤ (chunkSentences (splitSentences text) cs ov).length)
    (i : Nat) (hi : i + 1 < (chunkSentences (splitSentences text) cs ov).length) :
    (∃ t, (chunkSentences (splitSentences text) cs ov).getD i []
        = t ++ overlapSeed ov ((chunkSentences (splitSentences text) cs ov).getD i []))
    ∧ wordSum (overlapSeed ov ((chunkSentences (splitSentences text) cs ov).getD i [])) ≤ ov
    ∧ (∀ u t, (chunkSentences (splitSentences text) cs ov).getD i [] = t ++ u →
        wordSum u ≤ ov →
        u.length ≤ (overlapSeed ov ((chunkSentences (splitSentences text) cs ov).getD i [])).length)
    ∧ (∃ t, (chunkSentences (splitSentences text) cs ov).getD (i + 1) []
        = overlapSeed ov ((chunkSentences (splitSentences text) cs ov).getD i []) ++ t) := by
  refine ⟨overlapSeed_suffix ov _, overlapSeed_wordSum ov _, ?_, ?_⟩
  · intro u t hu hw
    exact overlapSeed_maximal ov _ u t hu hw
  · have hchain : chunkChain cs ov [] (chunkSentences (splitSentences text) cs ov) :=
      chunkChain_of_run cs ov (splitSentences text) [] [] [] 0 rfl rfl
        (Or.inl (Nat.zero_le cs))
    obtain ⟨nn, hdec, _⟩ := chunkChain_getD cs ov _ [] hchain i (by omega)
    exact ⟨nn, hdec⟩

/-- Claim C2 witness: overlap 2, so the seed is a real (non-empty) trailing
sentence of the previous chunk. -/
theorem c2_witness :
    2 < 3
    ∧ 2 ≤ (chunkSentences (splitSentences "a b. c d. e f.") 3 2).length
    ∧ 0 + 1 < (chunkSentences (splitSentences "a b. c d. e f.") 3 2).length
    ∧ ((∃ t, (chunkSentences (splitSentences "a b. c d. e f.") 3 2).getD 0 []
          = t ++ overlapSeed 2 ((chunkSentences (splitSentences "a b. c d. e f.") 3 2).getD 0 []))
      ∧ wordSum (overlapSeed 2 ((chunkSentences (splitSentences "a b. c d. e f.") 3 2).getD 0 [])) ≤ 2
      ∧ (∀ u t, (chunkSentences (splitSentences "a b. c d. e f.") 3 2).getD 0 [] = t ++ u →
          wordSum u ≤ 2 →
          u.length ≤ (overlapSeed 2 ((chunkSentences (splitSentences "a b. c d. e f.") 3 2).getD 0 [])).length)
      ∧ (∃ t, (chunkSentences (splitSentences "a b. c d. e f.") 3 2).getD (0 + 1) []
          = overlapSeed 2 ((chunkSentences (splitSentences "a b. c d. e f.") 3 2).getD 0 []) ++ t)) :=
  ⟨by decide, by decide, by decide,
   c2_overlap_seed "a b. c d. e f." 3 2 (by decide) (by decide) 0 (by decide)⟩

end NyayaSahayak
